import Mathlib

/-!
Shallow embedding of the heartbeat agent pipeline (`sample.py`, class
`Pipeline`, method `pipe`) of the `openagentkit` repository.

The pipeline sends the running conversation to a chat-completions endpoint,
parses the assistant reply's `content` with `json.loads`, and continues the
loop while the configured heartbeat field is truthy, bounded by `MAX_ITERS`.
The endpoint is modelled as an oracle `Nat → HttpResult` giving the outcome
of the k-th HTTP POST.
-/

namespace OpenAgentKit

/-- JSON values as produced by Python `json.loads`, which, beyond strict
JSON, also accepts the constants `NaN`, `Infinity` and `-Infinity`.  A
numeric literal with neither fraction nor exponent becomes a Python `int`
(arbitrary precision); any other numeric literal is converted by `float()`
and is modelled by its exact decimal value `(-1)^neg * m * 10^e10`, with
the rounding of tiny magnitudes to the double `0.0` accounted for in
`truthy`, the one place the pipeline observes the converted value. -/
inductive JVal where
  | null
  | bool (b : Bool)
  | int (n : Int)
  | float (neg : Bool) (m : Nat) (e10 : Int)
  | nan
  | inf (neg : Bool)
  | str (s : String)
  | arr (elems : List JVal)
  | obj (fields : List (String × JVal))

/-- The JSON whitespace characters accepted by Python `json.loads`. -/
def jsonWs (c : Char) : Bool :=
  c = ' ' || c = '\t' || c = '\n' || c = '\r'

/-- Drop leading JSON whitespace. -/
def skipWs (cs : List Char) : List Char :=
  cs.dropWhile jsonWs

/-- Opening brace character, written via its code point. -/
def obrace : Char := Char.ofNat 123

/-- Closing brace character, written via its code point. -/
def cbrace : Char := Char.ofNat 125

/-- Value of a hexadecimal digit. -/
def hexVal (c : Char) : Option Nat :=
  if c.isDigit then some (c.toNat - 48)
  else if 'a' ≤ c ∧ c ≤ 'f' then some (c.toNat - 97 + 10)
  else if 'A' ≤ c ∧ c ≤ 'F' then some (c.toNat - 65 + 10)
  else none

/-- Translation of a single-character JSON string escape. -/
def escChar (c : Char) : Option Char :=
  if c = '"' then some '"'
  else if c = '\\' then some '\\'
  else if c = '/' then some '/'
  else if c = 'b' then some (Char.ofNat 8)
  else if c = 'f' then some (Char.ofNat 12)
  else if c = 'n' then some '\n'
  else if c = 'r' then some '\r'
  else if c = 't' then some '\t'
  else none

/-- Parse the body of a JSON string after the opening quote; strict mode
rejects raw control characters, as Python `json.loads` does. -/
def parseStr : Nat → List Char → Option (String × List Char)
  | 0, _ => none
  | _ + 1, [] => none
  | f + 1, c :: r =>
    if c = '"' then some ("", r)
    else if c = '\\' then
      match r with
      | [] => none
      | e :: r2 =>
        if e = 'u' then
          match r2 with
          | h1 :: h2 :: h3 :: h4 :: r3 =>
            match hexVal h1, hexVal h2, hexVal h3, hexVal h4 with
            | some a, some b, some c2, some d =>
              match parseStr f r3 with
              | some (s, r4) => some (⟨Char.ofNat (((a * 16 + b) * 16 + c2) * 16 + d) :: s.data⟩, r4)
              | none => none
            | _, _, _, _ => none
          | _ => none
        else
          match escChar e with
          | some ec =>
            match parseStr f r2 with
            | some (s, r3) => some (⟨ec :: s.data⟩, r3)
            | none => none
          | none => none
    else if c.toNat < 32 then none
    else
      match parseStr f r with
      | some (s, r2) => some (⟨c :: s.data⟩, r2)
      | none => none

/-- Numeric value of a digit list, most significant first. -/
def digitsVal (ds : List Char) : Nat :=
  ds.foldl (fun a c => a * 10 + (c.toNat - 48)) 0

/-- Parse a JSON number (strict grammar, as Python's NUMBER_RE: no leading
zeros, fraction and exponent each need at least one digit).  A literal with
neither fraction nor exponent is a Python `int`; otherwise it is a float,
kept as its exact decimal components: sign, mantissa digits (integer part
followed by fraction digits) and the base-10 exponent adjusted by the
number of fraction digits. -/
def parseNum (cs : List Char) : Option (JVal × List Char) :=
  let sign : Bool × List Char :=
    match cs with
    | '-' :: r => (true, r)
    | _ => (false, cs)
  match sign.2 with
  | [] => none
  | c :: r =>
    if ¬ c.isDigit then none
    else
      let ip : List Char × List Char :=
        if c = '0' then ([c], r)
        else (List.takeWhile Char.isDigit (c :: r), List.dropWhile Char.isDigit (c :: r))
      if c = '0' && (match r with | d :: _ => d.isDigit | [] => false) then none
      else
        let frac : Option (List Char × List Char) :=
          match ip.2 with
          | '.' :: r2 =>
            let fd := List.takeWhile Char.isDigit r2
            if fd.isEmpty then none else some (fd, List.dropWhile Char.isDigit r2)
          | r2 => some ([], r2)
        match frac with
        | none => none
        | some (fd, rest2) =>
          let expo : Option ((Bool × List Char) × List Char) :=
            match rest2 with
            | 'e' :: r3 | 'E' :: r3 =>
              let sgnExp : Bool × List Char :=
                match r3 with
                | '+' :: r5 => (false, r5)
                | '-' :: r5 => (true, r5)
                | _ => (false, r3)
              let ed := List.takeWhile Char.isDigit sgnExp.2
              if ed.isEmpty then none
              else some ((sgnExp.1, ed), List.dropWhile Char.isDigit sgnExp.2)
            | r3 => some ((false, []), r3)
          match expo with
          | none => none
          | some (ex, rest3) =>
            if fd.isEmpty && ex.2.isEmpty then
              let n : Int := Int.ofNat (digitsVal ip.1)
              some (.int (if sign.1 then -n else n), rest3)
            else
              let m : Nat := digitsVal (ip.1 ++ fd)
              let ev : Int :=
                (if ex.1 then -(Int.ofNat (digitsVal ex.2)) else Int.ofNat (digitsVal ex.2)) -
                  Int.ofNat fd.length
              some (.float sign.1 m ev, rest3)

mutual

/-- Parse one JSON value (fuelled recursive descent, mirroring the grammar
accepted by Python `json.loads`, including the non-standard constants
`NaN`, `Infinity` and `-Infinity` that its default scanner recognizes). -/
def parseVal : Nat → List Char → Option (JVal × List Char)
  | 0, _ => none
  | f + 1, cs =>
    match skipWs cs with
    | [] => none
    | 'n' :: 'u' :: 'l' :: 'l' :: r => some (.null, r)
    | 't' :: 'r' :: 'u' :: 'e' :: r => some (.bool true, r)
    | 'f' :: 'a' :: 'l' :: 's' :: 'e' :: r => some (.bool false, r)
    | 'N' :: 'a' :: 'N' :: r => some (.nan, r)
    | 'I' :: 'n' :: 'f' :: 'i' :: 'n' :: 'i' :: 't' :: 'y' :: r => some (.inf false, r)
    | '-' :: 'I' :: 'n' :: 'f' :: 'i' :: 'n' :: 'i' :: 't' :: 'y' :: r => some (.inf true, r)
    | '"' :: r =>
      match parseStr f r with
      | some (s, r2) => some (.str s, r2)
      | none => none
    | '[' :: r =>
      match skipWs r with
      | ']' :: r2 => some (.arr [], r2)
      | r2 =>
        match parseItems f r2 with
        | some (xs, r3) => some (.arr xs, r3)
        | none => none
    | c :: r =>
      if c = obrace then
        match skipWs r with
        | [] => none
        | c2 :: r2 =>
          if c2 = cbrace then some (.obj [], r2)
          else
            match parseMembers f (c2 :: r2) with
            | some (kvs, r3) => some (.obj kvs, r3)
            | none => none
      else if c = '-' ∨ c.isDigit then parseNum (c :: r)
      else none

/-- Parse the comma-separated items of a JSON array up to `]`. -/
def parseItems : Nat → List Char → Option (List JVal × List Char)
  | 0, _ => none
  | f + 1, cs =>
    match parseVal f cs with
    | none => none
    | some (v, r) =>
      match skipWs r with
      | ',' :: r2 =>
        match parseItems f r2 with
        | some (xs, r3) => some (v :: xs, r3)
        | none => none
      | ']' :: r2 => some ([v], r2)
      | _ => none

/-- Parse the comma-separated members of a JSON object up to the closing
brace. -/
def parseMembers : Nat → List Char → Option (List (String × JVal) × List Char)
  | 0, _ => none
  | f + 1, cs =>
    match skipWs cs with
    | '"' :: r =>
      match parseStr f r with
      | none => none
      | some (k, r2) =>
        match skipWs r2 with
        | ':' :: r3 =>
          match parseVal f r3 with
          | none => none
          | some (v, r4) =>
            match skipWs r4 with
            | ',' :: r5 =>
              match parseMembers f r5 with
              | some (kvs, r6) => some ((k, v) :: kvs, r6)
              | none => none
            | c :: r5 => if c = cbrace then some ([(k, v)], r5) else none
            | [] => none
        | _ => none
    | _ => none

end

/-- Model of Python `json.loads`: parse one value and require that only
whitespace remains.  `none` models a raised `json.JSONDecodeError`. -/
def jsonLoads (s : String) : Option JVal :=
  match parseVal (2 * s.data.length + 2) s.data with
  | some (v, rest) => if (skipWs rest).isEmpty then some v else none
  | none => none

/-- Whether the decimal value `m * 10^e10` converts to the double `0.0`
under CPython's correctly-rounded `float()` conversion: exactly when its
magnitude is at most `2^-1075`, half the smallest subnormal (the exact tie
rounds to `0.0`, whose mantissa is even).  The sign is irrelevant: `-0.0`
is as falsy as `0.0`.  Magnitudes that overflow instead give `inf`, which
is truthy, as a nonzero mantissa already is here. -/
def floatRoundsToZero (m : Nat) (e10 : Int) : Bool :=
  if 0 ≤ e10 then m == 0
  else decide (m * 2 ^ 1075 ≤ 10 ^ (-e10).toNat)

/-- Python truthiness of a decoded JSON value: `bool(x)` for the values
`json.loads` can produce.  `float('nan')` and the infinities are truthy;
a float is falsy exactly when it rounds to `0.0`. -/
def truthy : JVal → Bool
  | .null => false
  | .bool b => b
  | .int n => n != 0
  | .float _ m e10 => !(floatRoundsToZero m e10)
  | .nan => true
  | .inf _ => true
  | .str s => s != ""
  | .arr xs => !xs.isEmpty
  | .obj kvs => !kvs.isEmpty

/-- Lookup in a Python dict built from JSON object members: when a key is
repeated, the last occurrence wins. -/
def dictGet (kvs : List (String × JVal)) (k : String) : Option JVal :=
  (kvs.reverse.find? (fun p => p.1 == k)).map (fun p => p.2)

/-- Model of Python `str.strip()`: remove whitespace from both ends. -/
def pyStrip (s : String) : String :=
  ⟨((s.data.dropWhile Char.isWhitespace).reverse.dropWhile Char.isWhitespace).reverse⟩

/-- One tool invocation requested by the assistant (OpenAI-style tool-call
metadata carried on an assistant message).  `pipe` never reads this field. -/
structure ToolCall where
  name : String
  arguments : String
deriving DecidableEq, Repr

/-- The `content` entry of a message dict: the key may be missing, may hold
JSON `null` (Python `None`), or may hold a string. -/
inductive ContentVal where
  | absent
  | null
  | str (s : String)
deriving DecidableEq, Repr, Inhabited

/-- A chat message dict: the fields of the message dicts that `pipe` builds
or reads.  An empty `tool_calls` list models absence of the key. -/
structure Message where
  role : String
  content : ContentVal
  tool_calls : List ToolCall := []
deriving DecidableEq, Repr, Inhabited

/-- Result of `assistant_msg.get("content", "")` as passed to `json.loads`:
a missing key yields the default `""`; a `None` value is returned as-is and
is not a string (`none` here), which makes `json.loads` raise `TypeError`. -/
def contentOf : ContentVal → Option String
  | .absent => some ""
  | .null => none
  | .str s => some s

/-- One derived tool specification (shape per `get_tools_specs`); the loop
only tests the list of specs for emptiness and embeds it in the payload. -/
structure ToolSpec where
  name : String
  description : String
deriving DecidableEq, Repr

/-- The `Valves` configuration of the pipeline (fields read by `pipe`),
with the source's defaults. -/
structure Valves where
  MAX_ITERS : Int := 5
  HEARTBEAT_FIELD : String := "heartbeat"
  TASK_MODEL : String := ""
  OPENAI_API_BASE_URL : String := ""
  OPENAI_API_KEY : String := ""
deriving DecidableEq, Repr

/-- Body of one outbound `POST {base}/chat/completions`: `tools` is `none`
when the key is omitted from the payload dict. -/
structure Payload where
  model : String
  messages : List Message
  tools : Option (List ToolSpec)
deriving DecidableEq, Repr, Inhabited

/-- Outcome of one HTTP POST to the endpoint: a 2xx response carrying
`choices[0].message`, a non-success status (so `raise_for_status` raises),
or a transport failure (a `requests` exception such as a timeout). -/
inductive HttpResult where
  | ok (msg : Message)
  | httpError (status : Nat)
  | netError
deriving DecidableEq, Repr

/-- Exceptions that can escape `pipe`. -/
inductive PipeError where
  | network
  | httpStatus (status : Nat)
  | typeError
  | keyError
  | attrError
  | indexError
deriving DecidableEq, Repr

/-- Either the returned answer string or a propagated exception. -/
inductive Outcome where
  | ok (answer : String)
  | err (e : PipeError)
deriving DecidableEq, Repr

/-- Continuation decision computed from the assistant content string,
following the `try: json.loads` block of `pipe`. -/
inductive Decision where
  | cont
  | stopFalsy
  | stopNotObj
  | stopNonJson
deriving DecidableEq, Repr

/-- The decision of one loop iteration: `json.loads` failure stops the loop
(`except json.JSONDecodeError: break`); a non-dict value stops it; a dict
stops it unless `data.get(HEARTBEAT_FIELD, False)` is truthy. -/
def hbDecide (field : String) (content : String) : Decision :=
  match jsonLoads content with
  | none => .stopNonJson
  | some (.obj kvs) =>
    match dictGet kvs field with
    | none => .stopFalsy
    | some v => if truthy v then .cont else .stopFalsy
  | some _ => .stopNotObj

/-- The synthetic continuation turn appended after a continue decision:
`convo.append({"role": "user", "content": ""})`. -/
def contTurn : Message :=
  { role := "user", content := .str "" }

/-- The payload built at the top of each iteration: `model` is always
`valves.TASK_MODEL`, and `tools` is added only when `tool_specs` is truthy
(a non-empty list). -/
def mkPayload (v : Valves) (tool_specs : List ToolSpec) (convo : List Message) : Payload :=
  { model := v.TASK_MODEL
    messages := convo
    tools := if tool_specs.isEmpty then none else some tool_specs }

/-- The final statement `return convo[-1]["content"].strip()`: indexing an
empty list raises `IndexError`, a missing `content` key raises `KeyError`,
and `None.strip()` raises `AttributeError`. -/
def finalize (convo : List Message) : Outcome :=
  match convo.getLast? with
  | none => .err .indexError
  | some m =>
    match m.content with
    | .str s => .ok (pyStrip s)
    | .absent => .err .keyError
    | .null => .err .attrError

/-- Trace of one invocation: every payload POSTed (in order), the
conversation at termination, and the returned value or raised exception. -/
structure RunResult where
  requests : List Payload
  convo : List Message
  outcome : Outcome
deriving DecidableEq, Repr

/-- Body of `for step in range(max_iters)` in `pipe`, with the remaining
iteration count as fuel.  Each iteration POSTs the current conversation,
appends the assistant message, computes the heartbeat decision from its
content, and either recurses with the synthetic continuation turn appended
or falls through to the final return. -/
def pipeLoop (v : Valves) (tool_specs : List ToolSpec) (env : Nat → HttpResult) :
    Nat → Nat → List Message → List Payload → RunResult
  | 0, _, convo, reqs => ⟨reqs, convo, finalize convo⟩
  | n + 1, step, convo, reqs =>
    let payload := mkPayload v tool_specs convo
    match env step with
    | .netError => ⟨reqs ++ [payload], convo, .err .network⟩
    | .httpError code => ⟨reqs ++ [payload], convo, .err (.httpStatus code)⟩
    | .ok assistant_msg =>
      let convo2 := convo ++ [assistant_msg]
      match contentOf assistant_msg.content with
      | none => ⟨reqs ++ [payload], convo2, .err .typeError⟩
      | some content =>
        match hbDecide v.HEARTBEAT_FIELD content with
        | .cont =>
          pipeLoop v tool_specs env n (step + 1) (convo2 ++ [contTurn]) (reqs ++ [payload])
        | _ => ⟨reqs ++ [payload], convo2, finalize convo2⟩

/-- Python `dict.copy()` on a message: a fresh dict with equal entries. -/
def Message.copy (m : Message) : Message := m

/-- The `pipe` method of the heartbeat pipeline.  `user_message`, `model_id`
and the request body are accepted but never read by the source.  The
conversation starts as `[m.copy() for m in messages]` and the loop runs
`range(MAX_ITERS)` times at most. -/
def pipe (v : Valves) (tool_specs : List ToolSpec) (user_message : String)
    (model_id : String) (messages : List Message) (env : Nat → HttpResult) : RunResult :=
  let convo := messages.map Message.copy
  pipeLoop v tool_specs env v.MAX_ITERS.toNat 0 convo []

/-!
Heap-level model.  To state that `pipe` never mutates the caller's message
list or the dicts it contains, the Python heap is made explicit: a store of
message dicts addressed by allocation index, with the caller's `messages`
a list of indices into it.  Dict reads dereference the store; `dict.copy()`
and every literal dict or `response.json()` message allocate a fresh cell at
the end of the store.  The source contains no in-place dict update, so the
store only grows.
-/

/-- Read the dict at address `i` of the store. -/
def derefMsg (store : List Message) (i : Nat) : Message :=
  store.getD i default

/-- The list comprehension `[m.copy() for m in messages]` at heap level:
each element is copied into a fresh cell; returns the grown store and the
addresses of the copies. -/
def copyInit (store : List Message) : List Nat → List Message × List Nat
  | [] => (store, [])
  | i :: is =>
    let store2 := store ++ [(derefMsg store i).copy]
    let rec2 := copyInit store2 is
    (rec2.1, store.length :: rec2.2)

/-- Trace of a heap-level invocation: final store, POSTed payloads,
addresses of the conversation entries, and the outcome. -/
structure RunResultH where
  store : List Message
  requests : List Payload
  convo : List Nat
  outcome : Outcome
deriving Repr

/-- Heap-level loop body: payload serialization dereferences the current
conversation; appending the assistant message (built by `response.json()`)
or the literal continuation dict allocates a fresh cell. -/
def pipeLoopH (v : Valves) (tool_specs : List ToolSpec) (env : Nat → HttpResult) :
    Nat → Nat → List Message → List Nat → List Payload → RunResultH
  | 0, _, store, convo, reqs => ⟨store, reqs, convo, finalize (convo.map (derefMsg store))⟩
  | n + 1, step, store, convo, reqs =>
    let payload := mkPayload v tool_specs (convo.map (derefMsg store))
    match env step with
    | .netError => ⟨store, reqs ++ [payload], convo, .err .network⟩
    | .httpError code => ⟨store, reqs ++ [payload], convo, .err (.httpStatus code)⟩
    | .ok assistant_msg =>
      let store2 := store ++ [assistant_msg]
      let convo2 := convo ++ [store.length]
      match contentOf assistant_msg.content with
      | none => ⟨store2, reqs ++ [payload], convo2, .err .typeError⟩
      | some content =>
        match hbDecide v.HEARTBEAT_FIELD content with
        | .cont =>
          pipeLoopH v tool_specs env n (step + 1) (store2 ++ [contTurn])
            (convo2 ++ [store2.length]) (reqs ++ [payload])
        | _ => ⟨store2, reqs ++ [payload], convo2, finalize (convo2.map (derefMsg store2))⟩

/-- Heap-level `pipe`: copy the caller's messages into fresh cells, then run
the loop on the copies. -/
def pipeH (v : Valves) (tool_specs : List ToolSpec) (user_message : String)
    (model_id : String) (store : List Message) (msg_ids : List Nat)
    (env : Nat → HttpResult) : RunResultH :=
  let init := copyInit store msg_ids
  pipeLoopH v tool_specs env v.MAX_ITERS.toNat 0 init.1 init.2 []

/-- Classify an HTTP outcome as the exception it raises inside the loop,
if any. -/
def toPipeError : HttpResult → Option PipeError
  | .ok _ => none
  | .httpError code => some (.httpStatus code)
  | .netError => some .network

/-! Shared fixtures used by concrete runs below. -/

/-- The assistant content `{"heartbeat": true}`. -/
def hbTrueStr : String := "\x7b\"heartbeat\": true\x7d"

/-- An assistant message whose content is `{"heartbeat": true}`. -/
def hbTrueMsg : Message := { role := "assistant", content := .str hbTrueStr }

/-- An endpoint that always replies `{"heartbeat": true}`. -/
def alwaysHb : Nat → HttpResult := fun _ => .ok hbTrueMsg

/-- A caller-supplied user message. -/
def userHi : Message := { role := "user", content := .str "hi" }

/-- A sample derived tool specification. -/
def toolSpecA : ToolSpec := { name := "get_server_time", description := "Get the current UTC time" }

/-! Helper lemmas about one iteration and about the request trace. -/

/-- A continue decision appends the assistant turn and the synthetic
continuation turn, records the request, and re-enters the loop. -/
theorem pipeLoop_succ_cont (v : Valves) (tool_specs : List ToolSpec) (env : Nat → HttpResult)
    (n step : Nat) (convo : List Message) (reqs : List Payload) (msg : Message) (s : String)
    (hresp : env step = .ok msg) (hc : msg.content = .str s)
    (hd : hbDecide v.HEARTBEAT_FIELD s = .cont) :
    pipeLoop v tool_specs env (n + 1) step convo reqs =
      pipeLoop v tool_specs env n (step + 1) (convo ++ [msg, contTurn])
        (reqs ++ [mkPayload v tool_specs convo]) := by
  simp [pipeLoop, hresp, hc, contentOf, hd]

/-- The loop issues at most one request per unit of remaining fuel. -/
theorem pipeLoop_req_len (v : Valves) (tool_specs : List ToolSpec) (env : Nat → HttpResult) :
    ∀ (n step : Nat) (convo : List Message) (reqs : List Payload),
      ((pipeLoop v tool_specs env n step convo reqs).requests).length ≤ reqs.length + n := by
  intro n
  induction n with
  | zero => intro step convo reqs; simp [pipeLoop]
  | succ n ih =>
    intro step convo reqs
    cases henv : env step with
    | ok msg =>
      cases hcv : msg.content with
      | null => simp [pipeLoop, henv, hcv, contentOf]
      | absent =>
        cases hdc : hbDecide v.HEARTBEAT_FIELD "" with
        | cont =>
          have h2 := ih (step + 1) ((convo ++ [msg]) ++ [contTurn])
            (reqs ++ [mkPayload v tool_specs convo])
          simp only [pipeLoop, henv, hcv, contentOf, hdc]
          simp only [List.length_append, List.length_cons, List.length_nil] at h2 ⊢
          omega
        | stopFalsy => simp [pipeLoop, henv, hcv, contentOf, hdc]
        | stopNotObj => simp [pipeLoop, henv, hcv, contentOf, hdc]
        | stopNonJson => simp [pipeLoop, henv, hcv, contentOf, hdc]
      | str s =>
        cases hdc : hbDecide v.HEARTBEAT_FIELD s with
        | cont =>
          have h2 := ih (step + 1) ((convo ++ [msg]) ++ [contTurn])
            (reqs ++ [mkPayload v tool_specs convo])
          simp only [pipeLoop, henv, hcv, contentOf, hdc]
          simp only [List.length_append, List.length_cons, List.length_nil] at h2 ⊢
          omega
        | stopFalsy => simp [pipeLoop, henv, hcv, contentOf, hdc]
        | stopNotObj => simp [pipeLoop, henv, hcv, contentOf, hdc]
        | stopNonJson => simp [pipeLoop, henv, hcv, contentOf, hdc]
    | httpError code => simp [pipeLoop, henv]
    | netError => simp [pipeLoop, henv]

/-- Every request recorded by the loop was already recorded or is the
payload built by `mkPayload` from some conversation. -/
theorem pipeLoop_req_shape (v : Valves) (tool_specs : List ToolSpec) (env : Nat → HttpResult) :
    ∀ (n step : Nat) (convo : List Message) (reqs : List Payload) (p : Payload),
      p ∈ (pipeLoop v tool_specs env n step convo reqs).requests →
      p ∈ reqs ∨ ∃ c, p = mkPayload v tool_specs c := by
  intro n
  induction n with
  | zero => intro step convo reqs p hp; exact Or.inl (by simpa [pipeLoop] using hp)
  | succ n ih =>
    intro step convo reqs p hp
    cases henv : env step with
    | ok msg =>
      cases hcv : msg.content with
      | null =>
        simp only [pipeLoop, henv, hcv, contentOf] at hp
        rcases List.mem_append.mp hp with h | h
        · exact Or.inl h
        · exact Or.inr ⟨convo, by simpa using h⟩
      | absent =>
        cases hdc : hbDecide v.HEARTBEAT_FIELD "" with
        | cont =>
          simp only [pipeLoop, henv, hcv, contentOf, hdc] at hp
          rcases ih (step + 1) ((convo ++ [msg]) ++ [contTurn])
              (reqs ++ [mkPayload v tool_specs convo]) p hp with h | h
          · rcases List.mem_append.mp h with h2 | h2
            · exact Or.inl h2
            · exact Or.inr ⟨convo, by simpa using h2⟩
          · exact Or.inr h
        | stopFalsy =>
          simp only [pipeLoop, henv, hcv, contentOf, hdc] at hp
          rcases List.mem_append.mp hp with h | h
          · exact Or.inl h
          · exact Or.inr ⟨convo, by simpa using h⟩
        | stopNotObj =>
          simp only [pipeLoop, henv, hcv, contentOf, hdc] at hp
          rcases List.mem_append.mp hp with h | h
          · exact Or.inl h
          · exact Or.inr ⟨convo, by simpa using h⟩
        | stopNonJson =>
          simp only [pipeLoop, henv, hcv, contentOf, hdc] at hp
          rcases List.mem_append.mp hp with h | h
          · exact Or.inl h
          · exact Or.inr ⟨convo, by simpa using h⟩
      | str s =>
        cases hdc : hbDecide v.HEARTBEAT_FIELD s with
        | cont =>
          simp only [pipeLoop, henv, hcv, contentOf, hdc] at hp
          rcases ih (step + 1) ((convo ++ [msg]) ++ [contTurn])
              (reqs ++ [mkPayload v tool_specs convo]) p hp with h | h
          · rcases List.mem_append.mp h with h2 | h2
            · exact Or.inl h2
            · exact Or.inr ⟨convo, by simpa using h2⟩
          · exact Or.inr h
        | stopFalsy =>
          simp only [pipeLoop, henv, hcv, contentOf, hdc] at hp
          rcases List.mem_append.mp hp with h | h
          · exact Or.inl h
          · exact Or.inr ⟨convo, by simpa using h⟩
        | stopNotObj =>
          simp only [pipeLoop, henv, hcv, contentOf, hdc] at hp
          rcases List.mem_append.mp hp with h | h
          · exact Or.inl h
          · exact Or.inr ⟨convo, by simpa using h⟩
        | stopNonJson =>
          simp only [pipeLoop, henv, hcv, contentOf, hdc] at hp
          rcases List.mem_append.mp hp with h | h
          · exact Or.inl h
          · exact Or.inr ⟨convo, by simpa using h⟩
    | httpError code =>
      simp only [pipeLoop, henv] at hp
      rcases List.mem_append.mp hp with h | h
      · exact Or.inl h
      · exact Or.inr ⟨convo, by simpa using h⟩
    | netError =>
      simp only [pipeLoop, henv] at hp
      rcases List.mem_append.mp hp with h | h
      · exact Or.inl h
      · exact Or.inr ⟨convo, by simpa using h⟩

/-! Further shared fixtures for witnesses and counterexamples. -/

/-- A configuration with default heartbeat field and room for five rounds. -/
def cfgW : Valves := { MAX_ITERS := 5, TASK_MODEL := "m" }

/-- A configuration whose iteration ceiling is three rounds. -/
def cfgC1 : Valves := { MAX_ITERS := 3, TASK_MODEL := "m" }

/-- A configuration whose iteration ceiling is one round. -/
def cfgC2 : Valves := { MAX_ITERS := 1, TASK_MODEL := "default-model" }

/-- A configuration with two rounds, used for the tool-call run. -/
def cfgC3 : Valves := { MAX_ITERS := 2, TASK_MODEL := "m" }

/-- An assistant turn that requests a tool invocation and signals heartbeat. -/
def toolCallMsg : Message :=
  { role := "assistant", content := .str hbTrueStr,
    tool_calls := [{ name := "get_server_time", arguments := "\x7b\x7d" }] }

/-- Endpoint that first requests a tool call, then answers `done`. -/
def envC3 : Nat → HttpResult := fun k =>
  if k = 0 then .ok toolCallMsg else .ok { role := "assistant", content := .str "done" }

/-- Endpoint that always fails with HTTP status 500. -/
def envErr : Nat → HttpResult := fun _ => .httpError 500

/-- Endpoint that immediately answers with the non-JSON string `done`. -/
def envStop : Nat → HttpResult := fun _ => .ok { role := "assistant", content := .str "done" }

/-- An assistant message whose `content` key holds `null`, the usual shape
of a tool-call turn. -/
def nullContentMsg : Message :=
  { role := "assistant", content := .null,
    tool_calls := [{ name := "fetch_url", arguments := "" }] }

/-- Endpoint that always replies with a null-content assistant message. -/
def envNull : Nat → HttpResult := fun _ => .ok nullContentMsg

/-! Claim theorems. -/

/-- C1: for every configuration with max iterations = N (N ≥ 1) and every
sequence of endpoint responses, one invocation of `pipe` performs at most N
completion round-trips, including when every response sets the heartbeat
field true. -/
theorem C1_termination_bound (v : Valves) (tool_specs : List ToolSpec)
    (um mid : String) (messages : List Message) (env : Nat → HttpResult) (N : Nat)
    (hN : 1 ≤ N) (hv : v.MAX_ITERS = (N : Int)) :
    ((pipe v tool_specs um mid messages env).requests).length ≤ N := by
  have h := pipeLoop_req_len v tool_specs env v.MAX_ITERS.toNat 0 (messages.map Message.copy) []
  simpa [pipe, hv] using h

/-- Witness for C1: a ceiling of three with an endpoint that always signals
heartbeat leads to at most three POSTs. -/
theorem C1_termination_bound_witness :
    ((pipe cfgC1 [] "q" "" [userHi] alwaysHb).requests).length ≤ 3 :=
  C1_termination_bound cfgC1 [] "q" "" [userHi] alwaysHb 3 (by decide) (by decide)

/-- C2 (divergence witness): with max iterations = 1 and an endpoint that
always signals continue, exactly one completion call occurs, but the loop
body appends the synthetic empty user turn before the ceiling is reached,
so `convo[-1]["content"].strip()` returns `""` — not the content of the
single assistant reply, which is non-empty after trimming. -/
theorem C2_ceiling_returns_synthetic_turn_content :
    ((pipe cfgC2 [] "hi" "" [userHi] alwaysHb).requests).length = 1 ∧
    (pipe cfgC2 [] "hi" "" [userHi] alwaysHb).convo = [userHi, hbTrueMsg, contTurn] ∧
    (pipe cfgC2 [] "hi" "" [userHi] alwaysHb).outcome = .ok "" ∧
    pyStrip hbTrueStr ≠ "" :=
  ⟨rfl, rfl, rfl, by decide⟩

/-- C3 (divergence witness): an assistant turn that requests a tool
invocation is followed, in the very next completion request, only by the
synthetic empty user turn — no tool is dispatched and no tool result is
appended to the conversation between the two completion rounds. -/
theorem C3_tool_call_turn_not_dispatched :
    toolCallMsg.tool_calls ≠ [] ∧
    ((pipe cfgC3 [toolSpecA] "q" "" [userHi] envC3).requests).length = 2 ∧
    (((pipe cfgC3 [toolSpecA] "q" "" [userHi] envC3).requests).getD 1 default).messages =
      [userHi, toolCallMsg, contTurn] ∧
    ((((pipe cfgC3 [toolSpecA] "q" "" [userHi] envC3).requests).getD 1 default).messages.all
      (fun m => m.role != "tool")) = true ∧
    (pipe cfgC3 [toolSpecA] "q" "" [userHi] envC3).outcome = .ok "done" :=
  ⟨by decide, rfl, rfl, by decide, rfl⟩

/-- C5: after every continue decision, the message appended to the
conversation is exactly `{role: user, content: ""}` — a user-role message
with empty string content and no tool-call metadata. -/
theorem C5_continuation_turn_shape (v : Valves) (tool_specs : List ToolSpec)
    (env : Nat → HttpResult) (n step : Nat) (convo : List Message)
    (reqs : List Payload) (msg : Message) (s : String)
    (hresp : env step = .ok msg) (hc : msg.content = .str s)
    (hd : hbDecide v.HEARTBEAT_FIELD s = .cont) :
    pipeLoop v tool_specs env (n + 1) step convo reqs =
      pipeLoop v tool_specs env n (step + 1)
        (convo ++ [msg, { role := "user", content := .str "", tool_calls := [] }])
        (reqs ++ [mkPayload v tool_specs convo]) :=
  pipeLoop_succ_cont v tool_specs env n step convo reqs msg s hresp hc hd

/-- Witness for C5 at a concrete continue decision. -/
theorem C5_continuation_turn_shape_witness :
    pipeLoop cfgW [] alwaysHb 3 0 [] [] =
      pipeLoop cfgW [] alwaysHb 2 1
        ([] ++ [hbTrueMsg, { role := "user", content := .str "", tool_calls := [] }])
        ([] ++ [mkPayload cfgW [] []]) :=
  C5_continuation_turn_shape cfgW [] alwaysHb 2 0 [] [] hbTrueMsg hbTrueStr rfl rfl rfl

/-- C6: a Completion Client failure (transport failure or non-success HTTP
status) on any iteration aborts the loop at once: the failing POST is the
last request recorded, the conversation gains no message, no retry happens,
and the error — not a partial answer — is the result. -/
theorem C6_client_failure_aborts (v : Valves) (tool_specs : List ToolSpec)
    (env : Nat → HttpResult) (n step : Nat) (convo : List Message)
    (reqs : List Payload) (e : PipeError)
    (h : toPipeError (env step) = some e) :
    pipeLoop v tool_specs env (n + 1) step convo reqs =
      ⟨reqs ++ [mkPayload v tool_specs convo], convo, .err e⟩ := by
  cases henv : env step with
  | ok m => rw [henv] at h; simp [toPipeError] at h
  | httpError code =>
    rw [henv] at h
    simp only [toPipeError, Option.some.injEq] at h
    subst h
    simp [pipeLoop, henv]
  | netError =>
    rw [henv] at h
    simp only [toPipeError, Option.some.injEq] at h
    subst h
    simp [pipeLoop, henv]

/-- Witness for C6: an HTTP 500 on the first round ends the run with the
propagated status error. -/
theorem C6_client_failure_aborts_witness :
    pipeLoop cfgW [] envErr 5 0 [] [] =
      ⟨[] ++ [mkPayload cfgW [] []], [], .err (.httpStatus 500)⟩ :=
  C6_client_failure_aborts cfgW [] envErr 4 0 [] [] (.httpStatus 500) rfl

/-- C7: every outbound completion request omits the `tools` field entirely
when the derived tool specification list is empty, and carries exactly the
serialized specifications when it is non-empty. -/
theorem C7_tools_field_omission (v : Valves) (tool_specs : List ToolSpec)
    (um mid : String) (messages : List Message) (env : Nat → HttpResult) (p : Payload)
    (hp : p ∈ (pipe v tool_specs um mid messages env).requests) :
    p.tools = if tool_specs.isEmpty then none else some tool_specs := by
  rcases pipeLoop_req_shape v tool_specs env v.MAX_ITERS.toNat 0
      (messages.map Message.copy) [] p (by simpa [pipe] using hp) with h | ⟨c, rfl⟩
  · simp at h
  · rfl

/-- Witness for C7: with one registered spec the request carries it. -/
theorem C7_tools_field_omission_witness :
    (mkPayload cfgW [toolSpecA] [userHi]).tools =
      (if ([toolSpecA] : List ToolSpec).isEmpty then none else some [toolSpecA]) :=
  C7_tools_field_omission cfgW [toolSpecA] "q" "" [userHi] envStop
    (mkPayload cfgW [toolSpecA] [userHi]) (by decide)

/-- C8 counterexample: a non-empty `model_id` argument (`custom-model`) is
not sent; the request carries the configured `TASK_MODEL` instead. -/
theorem C8_model_id_ignored :
    ((pipe cfgC2 [] "q" "custom-model" [userHi] alwaysHb).requests).map Payload.model =
      ["default-model"] ∧ ("default-model" : String) ≠ "custom-model" :=
  ⟨rfl, by decide⟩

/-- C8 amended: the model identifier sent in every outbound completion
request is always the configured `TASK_MODEL`, regardless of the `model_id`
argument (empty or not). -/
theorem C8_model_always_task_model (v : Valves) (tool_specs : List ToolSpec)
    (um mid : String) (messages : List Message) (env : Nat → HttpResult) (p : Payload)
    (hp : p ∈ (pipe v tool_specs um mid messages env).requests) :
    p.model = v.TASK_MODEL := by
  rcases pipeLoop_req_shape v tool_specs env v.MAX_ITERS.toNat 0
      (messages.map Message.copy) [] p (by simpa [pipe] using hp) with h | ⟨c, rfl⟩
  · simp at h
  · rfl

/-- Witness for the amended C8 at a concrete request. -/
theorem C8_model_always_task_model_witness :
    (mkPayload cfgW [toolSpecA] [userHi]).model = cfgW.TASK_MODEL :=
  C8_model_always_task_model cfgW [toolSpecA] "q" "custom-model" [userHi] envStop
    (mkPayload cfgW [toolSpecA] [userHi]) (by decide)

/-- C10: an endpoint response whose assistant message carries `content:
null` (the usual shape of a tool-call turn) makes `pipe` raise `TypeError`
at the `json.loads` call — an unhandled exception, not a returned string. -/
theorem C10_null_content_type_error (v : Valves) (tool_specs : List ToolSpec)
    (um mid : String) (messages : List Message) (env : Nat → HttpResult) (msg : Message)
    (h1 : 1 ≤ v.MAX_ITERS) (h2 : env 0 = .ok msg) (h3 : msg.content = .null) :
    (pipe v tool_specs um mid messages env).outcome = .err .typeError := by
  obtain ⟨n, hn2⟩ : ∃ n, v.MAX_ITERS.toNat = n + 1 :=
    ⟨v.MAX_ITERS.toNat - 1, by omega⟩
  simp [pipe, hn2, pipeLoop, h2, h3, contentOf]

/-- Witness for C10: a null-content tool-call-shaped reply raises. -/
theorem C10_null_content_type_error_witness :
    (pipe cfgW [] "q" "" [userHi] envNull).outcome = .err .typeError :=
  C10_null_content_type_error cfgW [] "q" "" [userHi] envNull nullContentMsg
    (by decide) rfl rfl

/-! Simulation of the heap-level run by the value-level run, for the
statelessness claim. -/

/-- Copying a message dict yields an equal message value. -/
@[simp] theorem Message.copy_eq (m : Message) : m.copy = m := rfl

/-- Dereferencing valid addresses ignores any extension of the store. -/
theorem map_deref_ext (store ext : List Message) (convo : List Nat)
    (h : ∀ j ∈ convo, j < store.length) :
    convo.map (derefMsg (store ++ ext)) = convo.map (derefMsg store) :=
  List.map_congr_left fun j hj => List.getD_append store ext default j (h j hj)

/-- The address right past the original store reads the first appended
cell. -/
theorem deref_append_self (store : List Message) (m : Message) (ext : List Message) :
    derefMsg (store ++ m :: ext) store.length = m := by
  unfold derefMsg
  rw [List.getD_append_right store (m :: ext) default store.length (le_refl _)]
  simp

/-- The next address reads the second appended cell. -/
theorem deref_append_one (store : List Message) (a b : Message) (ext : List Message) :
    derefMsg (store ++ a :: b :: ext) (store.length + 1) = b := by
  unfold derefMsg
  rw [List.getD_append_right store (a :: b :: ext) default (store.length + 1) (by omega)]
  simp

/-- The copying comprehension only appends to the store, the produced
addresses are valid, and they dereference to the original message values. -/
theorem copyInit_spec : ∀ (ids : List Nat) (store : List Message),
    (∀ i ∈ ids, i < store.length) →
    ∃ ext, (copyInit store ids).1 = store ++ ext ∧
      (∀ j ∈ (copyInit store ids).2, j < (store ++ ext).length) ∧
      ((copyInit store ids).2).map (derefMsg ((copyInit store ids).1)) =
        ids.map (derefMsg store) := by
  intro ids
  induction ids with
  | nil => intro store h; exact ⟨[], by simp [copyInit]⟩
  | cons i is ih =>
    intro store h
    have hvalid : ∀ x ∈ is, x < (store ++ [derefMsg store i]).length := by
      intro x hx
      have := h x (List.mem_cons_of_mem i hx)
      simp only [List.length_append, List.length_cons, List.length_nil]
      omega
    obtain ⟨ext2, h1, h2, h3⟩ := ih (store ++ [derefMsg store i]) hvalid
    refine ⟨derefMsg store i :: ext2, ?_, ?_, ?_⟩
    · simp [copyInit, h1]
    · intro j hj
      simp only [copyInit, List.mem_cons, Message.copy_eq] at hj
      rcases hj with hj | hj
      · subst hj
        simp only [List.length_append, List.length_cons]
        omega
      · have := h2 j hj
        simpa [List.append_assoc] using this
    · simp only [copyInit, List.map_cons, Message.copy_eq]
      have hhead : derefMsg ((copyInit (store ++ [derefMsg store i]) is).1) store.length =
          derefMsg store i := by
        rw [h1, List.append_assoc]
        exact deref_append_self store (derefMsg store i) ext2
      have htail : ((copyInit (store ++ [derefMsg store i]) is).2).map
          (derefMsg ((copyInit (store ++ [derefMsg store i]) is).1)) =
          is.map (derefMsg store) := by
        rw [h3]
        exact map_deref_ext store [derefMsg store i] is
          (fun x hx => h x (List.mem_cons_of_mem i hx))
      rw [hhead, htail]

/-- The heap-level loop only appends to the store and produces the same
request trace and outcome as the value-level loop run on the dereferenced
conversation. -/
theorem pipeLoopH_sim (v : Valves) (tool_specs : List ToolSpec) (env : Nat → HttpResult) :
    ∀ (n step : Nat) (store : List Message) (convo : List Nat) (reqs : List Payload),
      (∀ j ∈ convo, j < store.length) →
      ∃ ext,
        (pipeLoopH v tool_specs env n step store convo reqs).store = store ++ ext ∧
        (pipeLoopH v tool_specs env n step store convo reqs).requests =
          (pipeLoop v tool_specs env n step (convo.map (derefMsg store)) reqs).requests ∧
        (pipeLoopH v tool_specs env n step store convo reqs).outcome =
          (pipeLoop v tool_specs env n step (convo.map (derefMsg store)) reqs).outcome := by
  intro n
  induction n with
  | zero => intro step store convo reqs h; exact ⟨[], by simp [pipeLoopH, pipeLoop]⟩
  | succ n ih =>
    intro step store convo reqs h
    cases henv : env step with
    | netError => exact ⟨[], by simp [pipeLoopH, pipeLoop, henv]⟩
    | httpError code => exact ⟨[], by simp [pipeLoopH, pipeLoop, henv]⟩
    | ok msg =>
      have hmap1 : (convo ++ [store.length]).map (derefMsg (store ++ [msg])) =
          convo.map (derefMsg store) ++ [msg] := by
        rw [List.map_append, map_deref_ext store [msg] convo h]
        simp [deref_append_self store msg []]
      cases hcv : msg.content with
      | null =>
        exact ⟨[msg], by simp [pipeLoopH, pipeLoop, henv, hcv, contentOf]⟩
      | absent =>
        cases hdc : hbDecide v.HEARTBEAT_FIELD "" with
        | cont =>
          have hvalid2 : ∀ j ∈ (convo ++ [store.length]) ++ [(store ++ [msg]).length],
              j < ((store ++ [msg]) ++ [contTurn]).length := by
            intro j hj
            simp only [List.mem_append, List.mem_cons, List.not_mem_nil, or_false] at hj
            simp only [List.length_append, List.length_cons, List.length_nil] at hj ⊢
            rcases hj with (hj | hj) | hj
            · have := h j hj; omega
            · omega
            · omega
          obtain ⟨ext2, e1, e2, e3⟩ := ih (step + 1) ((store ++ [msg]) ++ [contTurn])
            ((convo ++ [store.length]) ++ [(store ++ [msg]).length])
            (reqs ++ [mkPayload v tool_specs (convo.map (derefMsg store))]) hvalid2
          have hmap2 : ((convo ++ [store.length]) ++ [(store ++ [msg]).length]).map
              (derefMsg ((store ++ [msg]) ++ [contTurn])) =
              (convo.map (derefMsg store) ++ [msg]) ++ [contTurn] := by
            have ha : convo.map (derefMsg ((store ++ [msg]) ++ [contTurn])) =
                convo.map (derefMsg store) := by
              rw [List.append_assoc]
              exact map_deref_ext store ([msg] ++ [contTurn]) convo h
            have hb : derefMsg ((store ++ [msg]) ++ [contTurn]) store.length = msg := by
              rw [List.append_assoc]
              exact deref_append_self store msg [contTurn]
            have hc2 : derefMsg ((store ++ [msg]) ++ [contTurn]) (store ++ [msg]).length =
                contTurn := by
              rw [List.append_assoc]
              simpa using deref_append_one store msg contTurn []
            simp only [List.map_append, List.map_cons, List.map_nil]
            rw [ha, hb, hc2]
          refine ⟨msg :: contTurn :: ext2, ?_, ?_, ?_⟩
          · rw [show pipeLoopH v tool_specs env (n + 1) step store convo reqs =
                pipeLoopH v tool_specs env n (step + 1) ((store ++ [msg]) ++ [contTurn])
                  ((convo ++ [store.length]) ++ [(store ++ [msg]).length])
                  (reqs ++ [mkPayload v tool_specs (convo.map (derefMsg store))]) from
                by simp [pipeLoopH, henv, hcv, contentOf, hdc]]
            rw [e1]
            simp
          · rw [show pipeLoopH v tool_specs env (n + 1) step store convo reqs =
                pipeLoopH v tool_specs env n (step + 1) ((store ++ [msg]) ++ [contTurn])
                  ((convo ++ [store.length]) ++ [(store ++ [msg]).length])
                  (reqs ++ [mkPayload v tool_specs (convo.map (derefMsg store))]) from
                by simp [pipeLoopH, henv, hcv, contentOf, hdc]]
            rw [e2, hmap2]
            simp [pipeLoop, henv, hcv, contentOf, hdc]
          · rw [show pipeLoopH v tool_specs env (n + 1) step store convo reqs =
                pipeLoopH v tool_specs env n (step + 1) ((store ++ [msg]) ++ [contTurn])
                  ((convo ++ [store.length]) ++ [(store ++ [msg]).length])
                  (reqs ++ [mkPayload v tool_specs (convo.map (derefMsg store))]) from
                by simp [pipeLoopH, henv, hcv, contentOf, hdc]]
            rw [e3, hmap2]
            simp [pipeLoop, henv, hcv, contentOf, hdc]
        | stopFalsy =>
          exact ⟨[msg], by simp [pipeLoopH, pipeLoop, henv, hcv, contentOf, hdc, hmap1]⟩
        | stopNotObj =>
          exact ⟨[msg], by simp [pipeLoopH, pipeLoop, henv, hcv, contentOf, hdc, hmap1]⟩
        | stopNonJson =>
          exact ⟨[msg], by simp [pipeLoopH, pipeLoop, henv, hcv, contentOf, hdc, hmap1]⟩
      | str s =>
        cases hdc : hbDecide v.HEARTBEAT_FIELD s with
        | cont =>
          have hvalid2 : ∀ j ∈ (convo ++ [store.length]) ++ [(store ++ [msg]).length],
              j < ((store ++ [msg]) ++ [contTurn]).length := by
            intro j hj
            simp only [List.mem_append, List.mem_cons, List.not_mem_nil, or_false] at hj
            simp only [List.length_append, List.length_cons, List.length_nil] at hj ⊢
            rcases hj with (hj | hj) | hj
            · have := h j hj; omega
            · omega
            · omega
          obtain ⟨ext2, e1, e2, e3⟩ := ih (step + 1) ((store ++ [msg]) ++ [contTurn])
            ((convo ++ [store.length]) ++ [(store ++ [msg]).length])
            (reqs ++ [mkPayload v tool_specs (convo.map (derefMsg store))]) hvalid2
          have hmap2 : ((convo ++ [store.length]) ++ [(store ++ [msg]).length]).map
              (derefMsg ((store ++ [msg]) ++ [contTurn])) =
              (convo.map (derefMsg store) ++ [msg]) ++ [contTurn] := by
            have ha : convo.map (derefMsg ((store ++ [msg]) ++ [contTurn])) =
                convo.map (derefMsg store) := by
              rw [List.append_assoc]
              exact map_deref_ext store ([msg] ++ [contTurn]) convo h
            have hb : derefMsg ((store ++ [msg]) ++ [contTurn]) store.length = msg := by
              rw [List.append_assoc]
              exact deref_append_self store msg [contTurn]
            have hc2 : derefMsg ((store ++ [msg]) ++ [contTurn]) (store ++ [msg]).length =
                contTurn := by
              rw [List.append_assoc]
              simpa using deref_append_one store msg contTurn []
            simp only [List.map_append, List.map_cons, List.map_nil]
            rw [ha, hb, hc2]
          refine ⟨msg :: contTurn :: ext2, ?_, ?_, ?_⟩
          · rw [show pipeLoopH v tool_specs env (n + 1) step store convo reqs =
                pipeLoopH v tool_specs env n (step + 1) ((store ++ [msg]) ++ [contTurn])
                  ((convo ++ [store.length]) ++ [(store ++ [msg]).length])
                  (reqs ++ [mkPayload v tool_specs (convo.map (derefMsg store))]) from
                by simp [pipeLoopH, henv, hcv, contentOf, hdc]]
            rw [e1]
            simp
          · rw [show pipeLoopH v tool_specs env (n + 1) step store convo reqs =
                pipeLoopH v tool_specs env n (step + 1) ((store ++ [msg]) ++ [contTurn])
                  ((convo ++ [store.length]) ++ [(store ++ [msg]).length])
                  (reqs ++ [mkPayload v tool_specs (convo.map (derefMsg store))]) from
                by simp [pipeLoopH, henv, hcv, contentOf, hdc]]
            rw [e2, hmap2]
            simp [pipeLoop, henv, hcv, contentOf, hdc]
          · rw [show pipeLoopH v tool_specs env (n + 1) step store convo reqs =
                pipeLoopH v tool_specs env n (step + 1) ((store ++ [msg]) ++ [contTurn])
                  ((convo ++ [store.length]) ++ [(store ++ [msg]).length])
                  (reqs ++ [mkPayload v tool_specs (convo.map (derefMsg store))]) from
                by simp [pipeLoopH, henv, hcv, contentOf, hdc]]
            rw [e3, hmap2]
            simp [pipeLoop, henv, hcv, contentOf, hdc]
        | stopFalsy =>
          exact ⟨[msg], by simp [pipeLoopH, pipeLoop, henv, hcv, contentOf, hdc, hmap1]⟩
        | stopNotObj =>
          exact ⟨[msg], by simp [pipeLoopH, pipeLoop, henv, hcv, contentOf, hdc, hmap1]⟩
        | stopNonJson =>
          exact ⟨[msg], by simp [pipeLoopH, pipeLoop, henv, hcv, contentOf, hdc, hmap1]⟩

/-- Copying every element of a message list leaves it unchanged. -/
theorem map_copy_id (l : List Message) : l.map Message.copy = l := by
  rw [show Message.copy = id from rfl, List.map_id]

/-- C9: `pipe` is stateless and mutation-free.  At heap level: the caller's
store prefix is unchanged by a run (no caller-supplied message dict and no
element of the caller's list is mutated); the initial conversation is a
value-equal copy of the caller's messages; and the request trace and the
outcome coincide with those of the value-level run on the message values
alone — so two invocations given identical input messages behave
identically, with no state carried between invocations. -/
theorem C9_stateless_no_mutation (v : Valves) (tool_specs : List ToolSpec)
    (um mid : String) (store : List Message) (msg_ids : List Nat) (env : Nat → HttpResult)
    (h : ∀ i ∈ msg_ids, i < store.length) :
    ((pipeH v tool_specs um mid store msg_ids env).store).take store.length = store ∧
    ((copyInit store msg_ids).2).map (derefMsg ((copyInit store msg_ids).1)) =
      msg_ids.map (derefMsg store) ∧
    (pipeH v tool_specs um mid store msg_ids env).requests =
      (pipe v tool_specs um mid (msg_ids.map (derefMsg store)) env).requests ∧
    (pipeH v tool_specs um mid store msg_ids env).outcome =
      (pipe v tool_specs um mid (msg_ids.map (derefMsg store)) env).outcome := by
  obtain ⟨ext1, hc1, hc2, hc3⟩ := copyInit_spec msg_ids store h
  obtain ⟨ext2, hs1, hs2, hs3⟩ := pipeLoopH_sim v tool_specs env v.MAX_ITERS.toNat 0
    (copyInit store msg_ids).1 (copyInit store msg_ids).2 []
    (fun j hj => by rw [hc1]; exact hc2 j hj)
  have hpH : pipeH v tool_specs um mid store msg_ids env =
      pipeLoopH v tool_specs env v.MAX_ITERS.toNat 0
        (copyInit store msg_ids).1 (copyInit store msg_ids).2 [] := rfl
  have hpure : pipe v tool_specs um mid (msg_ids.map (derefMsg store)) env =
      pipeLoop v tool_specs env v.MAX_ITERS.toNat 0 (msg_ids.map (derefMsg store)) [] := by
    rw [show pipe v tool_specs um mid (msg_ids.map (derefMsg store)) env =
        pipeLoop v tool_specs env v.MAX_ITERS.toNat 0
          ((msg_ids.map (derefMsg store)).map Message.copy) [] from rfl, map_copy_id]
  refine ⟨?_, hc3, ?_, ?_⟩
  · rw [hpH, hs1, hc1, List.append_assoc]
    exact List.take_left store (ext1 ++ ext2)
  · rw [hpH, hs2, hc3, hpure]
  · rw [hpH, hs3, hc3, hpure]

/-- Witness for C9 on a one-message caller list. -/
theorem C9_stateless_no_mutation_witness :
    ((pipeH cfgW [] "q" "" [userHi] [0] envStop).store).take ([userHi] : List Message).length =
      [userHi] ∧
    ((copyInit [userHi] [0]).2).map (derefMsg ((copyInit [userHi] [0]).1)) =
      ([0] : List Nat).map (derefMsg [userHi]) ∧
    (pipeH cfgW [] "q" "" [userHi] [0] envStop).requests =
      (pipe cfgW [] "q" "" (([0] : List Nat).map (derefMsg [userHi])) envStop).requests ∧
    (pipeH cfgW [] "q" "" [userHi] [0] envStop).outcome =
      (pipe cfgW [] "q" "" (([0] : List Nat).map (derefMsg [userHi])) envStop).outcome :=
  C9_stateless_no_mutation cfgW [] "q" "" [userHi] [0] envStop (by decide)

end OpenAgentKit
